import Mathlib

/-!
Verification of the escape-time fractal core of `src/task-1/julia.py`
(class `Julia`) against its specification.

The Python module imports `complex_grid` and `quadratic_map` from a
`mandelbrot` module that is not part of the sources; those two are
modelled from the specification text and marked as such.  Everything
else is embedded directly from `julia.py`.

Complex numbers are embedded as pairs of exact rationals; the float
magnitude test `abs(z) >= 2` is embedded as the equivalent exact
comparison `|z|^2 >= 4`, which the spec itself authorises ("magnitude
comparison uses `|z|^2 >= bound^2` or direct `|z| >= bound`").
-/

/-- A complex sample point: a pair of (exact) real numbers. -/
structure Cx where
  re : ℚ
  im : ℚ
deriving DecidableEq, Repr

/-- Complex addition, componentwise. -/
def Cx.add (w z : Cx) : Cx := ⟨w.re + z.re, w.im + z.im⟩

/-- Complex multiplication. -/
def Cx.mul (w z : Cx) : Cx := ⟨w.re * z.re - w.im * z.im, w.re * z.im + w.im * z.re⟩

/-- Complex negation. -/
def Cx.neg (z : Cx) : Cx := ⟨-z.re, -z.im⟩

/-- Squared magnitude of a complex number; `abs(z) >= 2` is `4 ≤ normSq z`. -/
def Cx.normSq (z : Cx) : ℚ := z.re * z.re + z.im * z.im

/-- The complex number 0. -/
def czero : Cx := ⟨0, 0⟩

/-- One step of the quadratic recurrence: `z ← z^2 + c`. -/
def qstep (c z : Cx) : Cx := Cx.add (Cx.mul z z) c

/-- Modelled from the spec: `quadratic_map(c, z0)` from the missing
`mandelbrot` module is a generator lazily yielding the infinite sequence of
iterates `z_0 = z0`, `z_{n+1} = z_n^2 + c` ("a lazily generated, infinite
sequence of iterates", recurrence from spec section 4.2).  It is embedded as
the function sending an index `n` to the n-th yielded iterate. -/
def quadratic_map (c z0 : Cx) : ℕ → Cx
  | 0 => z0
  | n + 1 => qstep c (quadratic_map c z0 n)

/-- The loop of `Julia.get_pixel`:
`for n, z in zip(range(budget), quadratic_map(c, z0)): if abs(z) >= 2: break`.
`k` is the next index `zip` would bind, `r` the number of indices left in the
range.  On `break` the loop stops with `n = k`; when the range is exhausted
the last bound index `k - 1` remains in `n`. -/
def pixelGo (c z0 : Cx) : ℕ → ℕ → ℕ
  | k, 0 => k - 1
  | k, r + 1 =>
    if 4 ≤ (quadratic_map c z0 k).normSq then k else pixelGo c z0 (k + 1) r

/-- The function `Julia.get_pixel(c, z0)`: run the loop with `range(256)` starting at
index 0 and return the final value of `n`. -/
def get_pixel (c z0 : Cx) : ℕ := pixelGo c z0 0 256

/-- The function `Julia.get_pixel` with the `return n` statement modelled fallibly: if the
loop body never runs (an empty `range`), `n` is unbound and `return n` raises
`NameError`, embedded as `none`. -/
def get_pixel_checked (budget : ℕ) (c z0 : Cx) : Option ℕ :=
  if budget = 0 then none else some (pixelGo c z0 0 budget)

/-- The error raised by the grid generator on bad parameters. -/
inductive GridError where
  | invalidParameter
deriving DecidableEq, Repr

/-- Modelled from the spec: `complex_grid(centre, extent, resolution)` from
the missing `mandelbrot` module builds a `resolution × resolution` array of
complex points covering the closed square
`[centre.re - extent/2, centre.re + extent/2] × [centre.im - extent/2,
centre.im + extent/2]`, sampled uniformly with inclusive endpoints (spacing
`extent / (resolution - 1)`), increasing row index corresponding to
increasing imaginary part; it fails eagerly with `InvalidParameter` when
`resolution < 1` or `extent <= 0` (spec sections 4.1 and 7). -/
def complex_grid (centre : Cx) (extent : ℚ) (resolution : ℤ) :
    Except GridError (List (List Cx)) :=
  if resolution < 1 ∨ extent ≤ 0 then Except.error GridError.invalidParameter
  else
    Except.ok ((List.range resolution.toNat).map (fun (i : ℕ) =>
      (List.range resolution.toNat).map (fun (j : ℕ) =>
        Cx.mk (centre.re - extent / 2 + (j : ℚ) * (extent / ((resolution.toNat : ℚ) - 1)))
              (centre.im - extent / 2 + (i : ℚ) * (extent / ((resolution.toNat : ℚ) - 1))))))

/-- The state built by `Julia.__init__`: the sample grid and the pixel
matrix, together with the constant `c`. -/
structure Julia where
  c_value : Cx
  grid : List (List Cx)
  pixels : List (List ℕ)
deriving DecidableEq, Repr

/-- The constructor `Julia.__init__(c_value, centre, extent, resolution)`: build the grid
with `complex_grid` (its failure propagates) and the pixel matrix by
applying `get_pixel` elementwise with `c_value` broadcast
(`np.vectorize(self.get_pixel)(c_value, self.grid)`). -/
def juliaInit (c_value centre : Cx) (extent : ℚ) (resolution : ℤ) :
    Except GridError Julia :=
  match complex_grid centre extent resolution with
  | Except.error e => Except.error e
  | Except.ok g =>
      Except.ok ⟨c_value, g, g.map (fun row => row.map (fun z => get_pixel c_value z))⟩

/-- A concrete `Julia` value: the result of `Julia(0, 3+0j, 2.0, 2)`, whose
grid is the four corners of the square centred at 3 with side 2, all of
magnitude at least 2, so every pixel is 0. -/
def J0 : Julia :=
  ⟨czero,
   [[⟨2, -1⟩, ⟨4, -1⟩], [⟨2, 1⟩, ⟨4, 1⟩]],
   [[0, 0], [0, 0]]⟩

/-! ### Basic lemmas about the iterate sequence and the loop -/

/-- The iterate sequence restarted one step in. -/
lemma quadratic_map_shift (c z0 : Cx) (n : ℕ) :
    quadratic_map c z0 (n + 1) = quadratic_map c (qstep c z0) n := by
  induction n with
  | zero => rfl
  | succ n ih => show qstep c (quadratic_map c z0 (n + 1)) = _; rw [ih]; rfl

/-- The orbit of 0 under `z ← z^2 + 0` is constantly 0. -/
lemma quadratic_map_zero (n : ℕ) : quadratic_map czero czero n = czero := by
  induction n with
  | zero => rfl
  | succ n ih => show qstep czero (quadratic_map czero czero n) = czero
                 rw [ih]; simp [qstep, Cx.add, Cx.mul, czero]

/-- If no iterate inspected by the loop escapes, the loop runs the range out
and the last bound index remains. -/
lemma pixelGo_cap (c z0 : Cx) :
    ∀ (r k : ℕ), (∀ i, i < r → (quadratic_map c z0 (k + i)).normSq < 4) →
    pixelGo c z0 k r = k + r - 1 := by
  intro r
  induction r with
  | zero => intro k _; rfl
  | succ r ih =>
    intro k h
    have h0 : (quadratic_map c z0 k).normSq < 4 := by
      have := h 0 (Nat.succ_pos r); rwa [Nat.add_zero] at this
    show (if 4 ≤ (quadratic_map c z0 k).normSq then k else pixelGo c z0 (k + 1) r)
        = k + (r + 1) - 1
    rw [if_neg (not_le.mpr h0)]
    have hrec := ih (k + 1) (fun i hi => by
      have e : k + 1 + i = k + (i + 1) := by omega
      rw [e]; exact h (i + 1) (by omega))
    omega

/-- If the j-th iterate is the first to escape and j is within the range,
the loop breaks there and returns j (offset by the starting index). -/
lemma pixelGo_escape (c z0 : Cx) :
    ∀ (r k j : ℕ), j < r → 4 ≤ (quadratic_map c z0 (k + j)).normSq →
    (∀ i, i < j → (quadratic_map c z0 (k + i)).normSq < 4) →
    pixelGo c z0 k r = k + j := by
  intro r
  induction r with
  | zero => intro k j hj; omega
  | succ r ih =>
    intro k j hj hesc hmin
    show (if 4 ≤ (quadratic_map c z0 k).normSq then k else pixelGo c z0 (k + 1) r)
        = k + j
    cases j with
    | zero =>
      have h0 : 4 ≤ (quadratic_map c z0 k).normSq := by
        have := hesc; rwa [Nat.add_zero] at this
      rw [if_pos h0]; omega
    | succ j =>
      have h0 : (quadratic_map c z0 k).normSq < 4 := by
        have := hmin 0 (Nat.succ_pos j); rwa [Nat.add_zero] at this
      rw [if_neg (not_le.mpr h0)]
      have hrec := ih (k + 1) j (by omega)
        (by have e : k + 1 + j = k + (j + 1) := by omega
            rw [e]; exact hesc)
        (fun i hi => by
          have e : k + 1 + i = k + (i + 1) := by omega
          rw [e]; exact hmin (i + 1) (by omega))
      omega

/-- The loop result never exceeds the last index of the range. -/
lemma pixelGo_le (c z0 : Cx) : ∀ (r k : ℕ), pixelGo c z0 k r ≤ k + r - 1 := by
  intro r
  induction r with
  | zero => intro k; exact Nat.le_refl _
  | succ r ih =>
    intro k
    show (if 4 ≤ (quadratic_map c z0 k).normSq then k else pixelGo c z0 (k + 1) r)
        ≤ k + (r + 1) - 1
    by_cases hc : 4 ≤ (quadratic_map c z0 k).normSq
    · rw [if_pos hc]; omega
    · rw [if_neg hc]; have := ih (k + 1); omega

/-- If no iterate among the 256 inspected escapes, `get_pixel` returns 255. -/
lemma get_pixel_eq_cap (c z0 : Cx)
    (h : ∀ i, i < 256 → (quadratic_map c z0 i).normSq < 4) :
    get_pixel c z0 = 255 := by
  have := pixelGo_cap c z0 256 0 (fun i hi => by
    rw [Nat.zero_add]; exact h i hi)
  show pixelGo c z0 0 256 = 255
  omega

/-- If the j-th iterate is the first to escape and `j < 256`, `get_pixel`
returns `j`. -/
lemma get_pixel_eq_first (c z0 : Cx) (j : ℕ) (hj : j < 256)
    (hesc : 4 ≤ (quadratic_map c z0 j).normSq)
    (hmin : ∀ i, i < j → (quadratic_map c z0 i).normSq < 4) :
    get_pixel c z0 = j := by
  have := pixelGo_escape c z0 256 0 j hj
    (by rw [Nat.zero_add]; exact hesc)
    (fun i hi => by rw [Nat.zero_add]; exact hmin i hi)
  show pixelGo c z0 0 256 = j
  omega

/-- Squaring is invariant under negation of the argument. -/
lemma mul_self_neg (z : Cx) : Cx.mul (Cx.neg z) (Cx.neg z) = Cx.mul z z := by
  simp [Cx.mul, Cx.neg]

/-- Squared magnitude is invariant under negation. -/
lemma normSq_neg (z : Cx) : (Cx.neg z).normSq = z.normSq := by
  simp [Cx.normSq, Cx.neg]

/-- From the first step on, the orbit of `-z0` coincides with that of `z0`. -/
lemma quadratic_map_neg (c z0 : Cx) (n : ℕ) :
    quadratic_map c (Cx.neg z0) (n + 1) = quadratic_map c z0 (n + 1) := by
  rw [quadratic_map_shift, quadratic_map_shift]
  have : qstep c (Cx.neg z0) = qstep c z0 := by
    show Cx.add (Cx.mul (Cx.neg z0) (Cx.neg z0)) c = _
    rw [mul_self_neg]; rfl
  rw [this]

/-- The loop is driven only by the squared magnitudes of the iterates. -/
lemma pixelGo_congr (c z0 z1 : Cx)
    (h : ∀ i, (quadratic_map c z0 i).normSq = (quadratic_map c z1 i).normSq) :
    ∀ (r k : ℕ), pixelGo c z0 k r = pixelGo c z1 k r := by
  intro r
  induction r with
  | zero => intro k; rfl
  | succ r ih =>
    intro k
    show (if 4 ≤ (quadratic_map c z0 k).normSq then k else pixelGo c z0 (k + 1) r)
        = (if 4 ≤ (quadratic_map c z1 k).normSq then k else pixelGo c z1 (k + 1) r)
    rw [h k]
    by_cases hc : 4 ≤ (quadratic_map c z1 k).normSq
    · rw [if_pos hc, if_pos hc]
    · rw [if_neg hc, if_neg hc]; exact ih (k + 1)

/-! ### Claims about the escape-time evaluator -/

/-- Claim C1, counterexample: at `c = 0`, `z0 = 0` the orbit never escapes,
yet `Julia.get_pixel` returns 255, not `max_iter = 256` as the spec states:
the loop variable `n` of `for n, z in zip(range(256), ...)` ends at 255. -/
theorem claim_C1_counterexample :
    get_pixel czero czero = 255 ∧ get_pixel czero czero ≠ 256 := by
  have h : get_pixel czero czero = 255 := get_pixel_eq_cap czero czero
    (fun i _ => by rw [quadratic_map_zero]; norm_num [Cx.normSq, czero])
  exact ⟨h, by rw [h]; decide⟩

/-- Claim C1, amended: for every input whose iterates never reach the escape
bound within the budget of 256 inspected iterates, `Julia.get_pixel` returns
255 (the budget minus one), the value the spec's `max_iter = 256` should be
corrected to. -/
theorem claim_C1 (c z0 : Cx)
    (h : ∀ i, i < 256 → (quadratic_map c z0 i).normSq < 4) :
    get_pixel c z0 = 255 :=
  get_pixel_eq_cap c z0 h

/-- Claim C1, witness: the amended claim applied at `c = 0`, `z0 = 0`. -/
theorem claim_C1_witness : get_pixel czero czero = 255 :=
  claim_C1 czero czero
    (fun i _ => by rw [quadratic_map_zero]; norm_num [Cx.normSq, czero])

/-- Claim C2, counterexample: `get_pixel 0 0` returns 255, which is strictly
below the iteration cap `max_iter = 256`, yet iterate 255 of that orbit has
magnitude 0, not `>= 2`: the returned value is not an escape index. -/
theorem claim_C2_counterexample :
    get_pixel czero czero = 255 ∧ 255 < 256 ∧
      ¬ 4 ≤ (quadratic_map czero czero 255).normSq := by
  refine ⟨get_pixel_eq_cap czero czero
    (fun i _ => by rw [quadratic_map_zero]; norm_num [Cx.normSq, czero]),
    by decide, ?_⟩
  rw [quadratic_map_zero]; norm_num [Cx.normSq, czero]

/-- Claim C2, amended: whenever `Julia.get_pixel` returns `n` strictly below
255 (rather than below 256: the code cannot distinguish a first escape at
index 255 from no escape at all, returning 255 in both cases), `n` is the
first index at which the iterate has magnitude at least 2. -/
theorem claim_C2 (c z0 : Cx) (n : ℕ) (hn : get_pixel c z0 = n)
    (hlt : n < 255) :
    4 ≤ (quadratic_map c z0 n).normSq ∧
      ∀ k, k < n → (quadratic_map c z0 k).normSq < 4 := by
  by_cases hex : ∃ i, 4 ≤ (quadratic_map c z0 i).normSq ∧ i < 256
  · have hP : ∃ i, 4 ≤ (quadratic_map c z0 i).normSq := by
      obtain ⟨i, hi, _⟩ := hex; exact ⟨i, hi⟩
    have hmin : ∀ k, k < Nat.find hP → (quadratic_map c z0 k).normSq < 4 :=
      fun k hk => not_le.mp (Nat.find_min hP hk)
    have hj : Nat.find hP < 256 := by
      obtain ⟨i, hi, hi256⟩ := hex
      exact Nat.lt_of_le_of_lt (Nat.find_min' hP hi) hi256
    have := get_pixel_eq_first c z0 (Nat.find hP) hj (Nat.find_spec hP) hmin
    have hnj : n = Nat.find hP := by rw [← hn, this]
    subst hnj
    exact ⟨Nat.find_spec hP, hmin⟩
  · push_neg at hex
    have hcap : get_pixel c z0 = 255 := get_pixel_eq_cap c z0
      (fun i hi => by
        by_contra hge
        exact absurd hi (not_lt.mpr (hex i (not_lt.mp hge))))
    omega

/-- Claim C2, witness: at `c = 0`, `z0 = 3` the evaluator returns 0, which is
below 255, and indeed iterate 0 has magnitude at least 2 while no earlier
iterate exists. -/
theorem claim_C2_witness :
    4 ≤ (quadratic_map czero ⟨3, 0⟩ 0).normSq ∧
      ∀ k, k < 0 → (quadratic_map czero ⟨3, 0⟩ k).normSq < 4 := by
  have h0 : get_pixel czero ⟨3, 0⟩ = 0 :=
    get_pixel_eq_first czero ⟨3, 0⟩ 0 (by decide)
      (by show 4 ≤ (Cx.normSq ⟨3, 0⟩); norm_num [Cx.normSq])
      (fun i hi => absurd hi (Nat.not_lt_zero i))
  exact claim_C2 czero ⟨3, 0⟩ 0 h0 (by decide)

/-- Claim C3: any starting point already at or beyond the escape bound
(`|z0| >= 2`, i.e. `normSq z0 ≥ 4`) yields escape count exactly 0. -/
theorem claim_C3 (c z0 : Cx) (h : 4 ≤ z0.normSq) : get_pixel c z0 = 0 :=
  get_pixel_eq_first c z0 0 (by decide) h
    (fun i hi => absurd hi (Nat.not_lt_zero i))

/-- Claim C3, witness: `get_pixel(c = 0, z0 = 3) = 0`. -/
theorem claim_C3_witness : get_pixel czero ⟨3, 0⟩ = 0 :=
  claim_C3 czero ⟨3, 0⟩ (by norm_num [Cx.normSq])

/-- Claim C4: the value returned by `Julia.get_pixel` is always an integer
in the inclusive range `[0, 255]` (hence also within `[0, max_iter]`). -/
theorem claim_C4 (c z0 : Cx) : 0 ≤ get_pixel c z0 ∧ get_pixel c z0 ≤ 255 :=
  ⟨Nat.zero_le _, by have := pixelGo_le c z0 256 0; exact this⟩

/-- Claim C6: `Julia.get_pixel` is a deterministic pure function — its
result is fully determined by the pair `(c, z0)`; two evaluations on equal
inputs are equal. (Purity itself is inherent to the embedding: the function
reads no state besides its arguments.) -/
theorem claim_C6 (c1 z1 c2 z2 : Cx) (hc : c1 = c2) (hz : z1 = z2) :
    get_pixel c1 z1 = get_pixel c2 z2 := by rw [hc, hz]

/-- Claim C6, witness: two evaluations at `c = 0`, `z0 = 0` coincide. -/
theorem claim_C6_witness : get_pixel czero czero = get_pixel czero czero :=
  claim_C6 czero czero czero czero rfl rfl

/-- Claim C7: on every (finite, exact) numeric input the evaluator
terminates normally with an integer result: the fallible model of the loop
(whose only conceivable failure, an unbound `n`, needs an empty range)
always returns a value, and that value is at most 255. -/
theorem claim_C7 (c z0 : Cx) :
    ∃ m, get_pixel_checked 256 c z0 = some m ∧ m ≤ 255 := by
  refine ⟨get_pixel c z0, rfl, ?_⟩
  have := pixelGo_le c z0 256 0
  exact this

/-- Claim C7, witness: the claim instantiated at `c = 0`, `z0 = 0`. -/
theorem claim_C7_witness :
    ∃ m, get_pixel_checked 256 czero czero = some m ∧ m ≤ 255 :=
  claim_C7 czero czero

/-- Claim C10: the escape count is invariant under negation of the starting
point, since `|-z0| = |z0|` and `(-z0)^2 + c = z0^2 + c`. -/
theorem claim_C10 (c z0 : Cx) : get_pixel c z0 = get_pixel c (Cx.neg z0) := by
  have h : ∀ i, (quadratic_map c z0 i).normSq
      = (quadratic_map c (Cx.neg z0) i).normSq := by
    intro i
    cases i with
    | zero => exact (normSq_neg z0).symm
    | succ i => rw [quadratic_map_neg]
  exact pixelGo_congr c z0 (Cx.neg z0) h 256 0

/-! ### Claims about the grid generator and the constructor -/

/-- On valid parameters the grid generator returns its sample grid. -/
lemma complex_grid_ok (centre : Cx) (extent : ℚ) (resolution : ℤ)
    (hres : 1 ≤ resolution) (hext : 0 < extent) :
    complex_grid centre extent resolution =
      Except.ok ((List.range resolution.toNat).map (fun (i : ℕ) =>
        (List.range resolution.toNat).map (fun (j : ℕ) =>
          Cx.mk (centre.re - extent / 2 + (j : ℚ) * (extent / ((resolution.toNat : ℚ) - 1)))
                (centre.im - extent / 2 + (i : ℚ) * (extent / ((resolution.toNat : ℚ) - 1)))))) := by
  simp only [complex_grid]
  rw [if_neg]
  push_neg
  exact ⟨by omega, hext⟩

/-- A starting point whose magnitude is at least the bound escapes at 0. -/
lemma get_pixel_escape0 (c z0 : Cx) (h : 4 ≤ z0.normSq) : get_pixel c z0 = 0 :=
  get_pixel_eq_first c z0 0 (by decide) h
    (fun i hi => absurd hi (Nat.not_lt_zero i))

/-- Claim C8: the grid generator fails with `InvalidParameter` whenever
`resolution < 1` or `extent ≤ 0`, before any grid is built, and the
constructor then produces no pixel matrix either. -/
theorem claim_C8 (c_value centre : Cx) (extent : ℚ) (resolution : ℤ)
    (h : resolution < 1 ∨ extent ≤ 0) :
    complex_grid centre extent resolution
        = Except.error GridError.invalidParameter ∧
      juliaInit c_value centre extent resolution
        = Except.error GridError.invalidParameter := by
  have hg : complex_grid centre extent resolution
      = Except.error GridError.invalidParameter := by
    simp only [complex_grid]
    rw [if_pos h]
  exact ⟨hg, by simp only [juliaInit, hg]⟩

/-- Claim C8, witness: `resolution = 0` (with `extent = 1`) fails. -/
theorem claim_C8_witness :
    complex_grid czero 1 0 = Except.error GridError.invalidParameter ∧
      juliaInit czero czero 1 0 = Except.error GridError.invalidParameter :=
  claim_C8 czero czero 1 0 (Or.inl (by decide))

/-- The grid offsets lie between 0 and `extent`. -/
lemma grid_coord_bounds (extent : ℚ) (n j : ℕ) (hn : 2 ≤ n) (hj : j < n)
    (hext : 0 < extent) :
    0 ≤ (j : ℚ) * (extent / ((n : ℚ) - 1)) ∧
      (j : ℚ) * (extent / ((n : ℚ) - 1)) ≤ extent := by
  have hn1 : (0 : ℚ) < (n : ℚ) - 1 := by
    have : (2 : ℚ) ≤ (n : ℚ) := by exact_mod_cast hn
    linarith
  have hs : 0 ≤ extent / ((n : ℚ) - 1) := le_of_lt (div_pos hext hn1)
  refine ⟨mul_nonneg (Nat.cast_nonneg j) hs, ?_⟩
  have hj1 : (j : ℚ) ≤ (n : ℚ) - 1 := by
    have hj3 : j ≤ n - 1 := by omega
    have hc : (j : ℚ) ≤ ((n - 1 : ℕ) : ℚ) := by exact_mod_cast hj3
    rwa [Nat.cast_sub (by omega : 1 ≤ n), Nat.cast_one] at hc
  calc (j : ℚ) * (extent / ((n : ℚ) - 1))
      ≤ ((n : ℚ) - 1) * (extent / ((n : ℚ) - 1)) :=
        mul_le_mul_of_nonneg_right hj1 hs
    _ = extent := by field_simp

/-- The last grid offset equals `extent` exactly. -/
lemma grid_coord_top (extent : ℚ) (n : ℕ) (hn : 2 ≤ n) :
    ((n - 1 : ℕ) : ℚ) * (extent / ((n : ℚ) - 1)) = extent := by
  have hn1 : ((n : ℚ) - 1) ≠ 0 := by
    have : (2 : ℚ) ≤ (n : ℚ) := by exact_mod_cast hn
    intro hz; linarith
  rw [Nat.cast_sub (by omega : 1 ≤ n), Nat.cast_one]
  field_simp

/-- Claim C9: for valid parameters the grid is `resolution × resolution`,
every sampled coordinate lies within the bounding square, the extreme
coordinates `centre ± extent/2` are attained on both axes (at the two
opposite corners), and `resolution = 2` yields exactly the four corners. -/
theorem claim_C9 (centre : Cx) (extent : ℚ) (resolution : ℤ)
    (hres : 2 ≤ resolution) (hext : 0 < extent) :
    ∃ g, complex_grid centre extent resolution = Except.ok g ∧
      g.length = resolution.toNat ∧
      (∀ row, row ∈ g → row.length = resolution.toNat) ∧
      (∀ row, row ∈ g → ∀ p, p ∈ row →
        centre.re - extent / 2 ≤ p.re ∧ p.re ≤ centre.re + extent / 2 ∧
        centre.im - extent / 2 ≤ p.im ∧ p.im ≤ centre.im + extent / 2) ∧
      (∃ row, row ∈ g ∧ ∃ p, p ∈ row ∧
        p.re = centre.re - extent / 2 ∧ p.im = centre.im - extent / 2) ∧
      (∃ row, row ∈ g ∧ ∃ p, p ∈ row ∧
        p.re = centre.re + extent / 2 ∧ p.im = centre.im + extent / 2) ∧
      (resolution = 2 →
        g = [[Cx.mk (centre.re - extent / 2) (centre.im - extent / 2),
              Cx.mk (centre.re + extent / 2) (centre.im - extent / 2)],
             [Cx.mk (centre.re - extent / 2) (centre.im + extent / 2),
              Cx.mk (centre.re + extent / 2) (centre.im + extent / 2)]]) := by
  have hres1 : (1 : ℤ) ≤ resolution := by omega
  have hn : 2 ≤ resolution.toNat := by omega
  refine ⟨_, complex_grid_ok centre extent resolution hres1 hext,
    by simp, ?_, ?_, ?_, ?_, ?_⟩
  · intro row hrow
    rw [List.mem_map] at hrow
    obtain ⟨i, _, rfl⟩ := hrow
    simp
  · intro row hrow p hp
    rw [List.mem_map] at hrow
    obtain ⟨i, hi, rfl⟩ := hrow
    rw [List.mem_map] at hp
    obtain ⟨j, hj, rfl⟩ := hp
    rw [List.mem_range] at hi hj
    have hbj := grid_coord_bounds extent resolution.toNat j hn hj hext
    have hbi := grid_coord_bounds extent resolution.toNat i hn hi hext
    refine ⟨by simp only []; linarith [hbj.1], by simp only []; linarith [hbj.2],
      by simp only []; linarith [hbi.1], by simp only []; linarith [hbi.2]⟩
  · refine ⟨_, List.mem_map.mpr ⟨0, List.mem_range.mpr (by omega), rfl⟩,
      _, List.mem_map.mpr ⟨0, List.mem_range.mpr (by omega), rfl⟩, ?_, ?_⟩
    · simp
    · simp
  · refine ⟨_, List.mem_map.mpr ⟨resolution.toNat - 1,
        List.mem_range.mpr (by omega), rfl⟩,
      _, List.mem_map.mpr ⟨resolution.toNat - 1,
        List.mem_range.mpr (by omega), rfl⟩, ?_, ?_⟩
    · show centre.re - extent / 2
          + ((resolution.toNat - 1 : ℕ) : ℚ) * (extent / ((resolution.toNat : ℚ) - 1))
          = centre.re + extent / 2
      rw [grid_coord_top extent resolution.toNat hn]; ring
    · show centre.im - extent / 2
          + ((resolution.toNat - 1 : ℕ) : ℚ) * (extent / ((resolution.toNat : ℚ) - 1))
          = centre.im + extent / 2
      rw [grid_coord_top extent resolution.toNat hn]; ring
  · intro h2
    subst h2
    have hr : List.range (2 : ℤ).toNat = [0, 1] := rfl
    rw [hr]
    have h2q : ((2 : ℤ).toNat : ℚ) = 2 := by
      show ((2 : ℕ) : ℚ) = 2
      norm_num
    rw [h2q]
    simp only [List.map_cons, List.map_nil, Cx.mk.injEq]
    norm_num
    and_intros <;> ring

/-- Claim C9, witness: the claim applied at `centre = 0`, `extent = 1`,
`resolution = 2`. -/
theorem claim_C9_witness :
    ∃ g, complex_grid czero 1 2 = Except.ok g ∧
      g.length = (2 : ℤ).toNat ∧
      (∀ row, row ∈ g → row.length = (2 : ℤ).toNat) ∧
      (∀ row, row ∈ g → ∀ p, p ∈ row →
        czero.re - 1 / 2 ≤ p.re ∧ p.re ≤ czero.re + 1 / 2 ∧
        czero.im - 1 / 2 ≤ p.im ∧ p.im ≤ czero.im + 1 / 2) ∧
      (∃ row, row ∈ g ∧ ∃ p, p ∈ row ∧
        p.re = czero.re - 1 / 2 ∧ p.im = czero.im - 1 / 2) ∧
      (∃ row, row ∈ g ∧ ∃ p, p ∈ row ∧
        p.re = czero.re + 1 / 2 ∧ p.im = czero.im + 1 / 2) ∧
      ((2 : ℤ) = 2 →
        g = [[Cx.mk (czero.re - 1 / 2) (czero.im - 1 / 2),
              Cx.mk (czero.re + 1 / 2) (czero.im - 1 / 2)],
             [Cx.mk (czero.re - 1 / 2) (czero.im + 1 / 2),
              Cx.mk (czero.re + 1 / 2) (czero.im + 1 / 2)]]) :=
  claim_C9 czero 1 2 (by decide) (by norm_num)

/-- The grid of `Julia(0, 3+0j, 2.0, 2)`. -/
lemma complex_grid_J0 :
    complex_grid ⟨3, 0⟩ 2 2
      = Except.ok [[⟨2, -1⟩, ⟨4, -1⟩], [⟨2, 1⟩, ⟨4, 1⟩]] := by
  rw [complex_grid_ok ⟨3, 0⟩ 2 2 (by decide) (by norm_num)]
  have hr : List.range (2 : ℤ).toNat = [0, 1] := rfl
  rw [hr]
  have h2q : ((2 : ℤ).toNat : ℚ) = 2 := by
    show ((2 : ℕ) : ℚ) = 2
    norm_num
  rw [h2q]
  simp only [List.map_cons, List.map_nil, Cx.mk.injEq]
  norm_num

/-- The full constructor run for `Julia(0, 3+0j, 2.0, 2)`. -/
lemma juliaInit_J0 : juliaInit czero ⟨3, 0⟩ 2 2 = Except.ok J0 := by
  simp only [juliaInit, complex_grid_J0]
  simp only [List.map_cons, List.map_nil]
  rw [get_pixel_escape0 czero ⟨2, -1⟩ (by norm_num [Cx.normSq]),
      get_pixel_escape0 czero ⟨4, -1⟩ (by norm_num [Cx.normSq]),
      get_pixel_escape0 czero ⟨2, 1⟩ (by norm_num [Cx.normSq]),
      get_pixel_escape0 czero ⟨4, 1⟩ (by norm_num [Cx.normSq])]
  rfl

/-- Claim C5: a successfully constructed `Julia` has a pixel matrix of the
same shape as its grid, and each entry is `get_pixel` of the fixed constant
and the corresponding grid point alone. -/
theorem claim_C5 (c_value centre : Cx) (extent : ℚ) (resolution : ℤ)
    (J : Julia) (h : juliaInit c_value centre extent resolution = Except.ok J) :
    J.pixels.length = J.grid.length ∧
    (∀ (i : ℕ) (hi : i < J.grid.length) (hip : i < J.pixels.length),
      J.pixels[i].length = J.grid[i].length) ∧
    ∀ (i j : ℕ) (hi : i < J.grid.length) (hip : i < J.pixels.length)
      (hj : j < J.grid[i].length) (hjp : j < J.pixels[i].length),
      J.pixels[i][j] = get_pixel c_value J.grid[i][j] := by
  have key : ∃ g, J = ⟨c_value, g,
      g.map (fun row => row.map (fun z => get_pixel c_value z))⟩ := by
    cases hcg : complex_grid centre extent resolution with
    | error e => simp [juliaInit, hcg] at h
    | ok g =>
      simp only [juliaInit, hcg] at h
      rw [Except.ok.injEq] at h
      exact ⟨g, h.symm⟩
  obtain ⟨g, rfl⟩ := key
  refine ⟨by simp, ?_, ?_⟩
  · intro i hi hip
    simp [List.getElem_map]
  · intro i j hi hip hj hjp
    simp [List.getElem_map]

/-- Claim C5, witness: the claim applied to the concrete construction
`Julia(0, 3+0j, 2.0, 2)`. -/
theorem claim_C5_witness :
    J0.pixels.length = J0.grid.length ∧
    (∀ (i : ℕ) (hi : i < J0.grid.length) (hip : i < J0.pixels.length),
      J0.pixels[i].length = J0.grid[i].length) ∧
    ∀ (i j : ℕ) (hi : i < J0.grid.length) (hip : i < J0.pixels.length)
      (hj : j < J0.grid[i].length) (hjp : j < J0.pixels[i].length),
      J0.pixels[i][j] = get_pixel czero J0.grid[i][j] :=
  claim_C5 czero ⟨3, 0⟩ 2 2 J0 juliaInit_J0
